import Mathlib

/-!
Verification of the route-registration and middleware-composition engine of
`rest/server.go` (go-zero). Handlers are modelled as trace transformers so
that wrapping order is observable; fallible configuration steps (Go panics)
are modelled with `Except`.
-/

set_option maxHeartbeats 1000000

namespace GoZero

/-- Model of `http.HandlerFunc`: a handler is observed through the event
trace it appends to. -/
def HandlerFunc := List String → List String

/-- `Middleware func(next http.HandlerFunc) http.HandlerFunc` from rest/types.go. -/
def Middleware := HandlerFunc → HandlerFunc

/-- `Route` from rest/types.go: method, path, handler. -/
structure Route where
  Method : String
  Path : String
  Handler : HandlerFunc

/-- `WithMiddleware` (server.go): builds a new slice whose i-th route keeps
the i-th input route's method and path and wraps its handler. -/
def WithMiddleware (middleware : Middleware) (rs : List Route) : List Route :=
  rs.map (fun route =>
    { Method := route.Method
      Path := route.Path
      Handler := middleware route.Handler })

/-- `WithMiddlewares` (server.go): iterates the middleware slice from the
last index down to 0, rebinding `rs` each step. -/
def WithMiddlewares (ms : List Middleware) (rs : List Route) : List Route :=
  ms.reverse.foldl (fun acc m => WithMiddleware m acc) rs

/-- A middleware that records an enter event before calling the next handler
and an exit event after it returns. -/
def traceMw (name : String) : Middleware :=
  fun next => fun events => next (events ++ ["enter:" ++ name]) ++ ["exit:" ++ name]

/-- A base handler that records a single event. -/
def traceHandler : HandlerFunc :=
  fun events => events ++ ["handler"]

/-- Nesting of a middleware list around a base handler, first middleware
outermost. -/
def nest (ms : List Middleware) (h : HandlerFunc) : HandlerFunc :=
  ms.foldr (fun m acc => m acc) h

/-! Go standard library `path.Clean` / `path.Join`, used by `WithPrefix`.
`path.Clean` removes empty and `.` segments, resolves `..`, and strips
trailing separators; `path.Join` concatenates with `/` and cleans. -/

/-- Split a character list at every `/`, like reading Go's path byte by byte. -/
def splitSlash : List Char → List (List Char)
  | [] => [[]]
  | c :: rest =>
    if c = '/' then [] :: splitSlash rest
    else
      match splitSlash rest with
      | [] => [[c]]
      | seg :: segs => (c :: seg) :: segs

/-- The segment loop of Go `path.Clean`: drop empty and `.` segments; on
`..` pop the last kept segment when one is poppable, else (non-rooted only)
keep the `..`. `acc` holds kept segments in reverse. -/
def cleanSegs (rooted : Bool) (acc : List (List Char)) : List (List Char) → List (List Char)
  | [] => acc.reverse
  | seg :: rest =>
    if seg = [] ∨ seg = ['.'] then cleanSegs rooted acc rest
    else if seg = ['.', '.'] then
      match acc with
      | [] => if rooted then cleanSegs rooted [] rest else cleanSegs rooted [seg] rest
      | top :: accRest =>
          if top = ['.', '.'] then cleanSegs rooted (seg :: acc) rest
          else cleanSegs rooted accRest rest
    else cleanSegs rooted (seg :: acc) rest

/-- Join segments back with single separators. -/
def joinSegs : List (List Char) → List Char
  | [] => []
  | [seg] => seg
  | seg :: rest => seg ++ '/' :: joinSegs rest

/-- Go `path.Clean` on the character list: rooted paths keep their leading
separator and drop `..` at the root; an empty result is `"/"` when rooted
and `"."` otherwise. -/
def pathCleanList : List Char → String
  | [] => "."
  | c :: cs =>
    if c = '/' then
      String.mk ('/' :: joinSegs (cleanSegs true [] (splitSlash (c :: cs))))
    else if joinSegs (cleanSegs false [] (splitSlash (c :: cs))) = [] then "."
    else String.mk (joinSegs (cleanSegs false [] (splitSlash (c :: cs))))

/-- Go `path.Clean` (lexical cleaning, segment formulation). -/
def pathClean (p : String) : String := pathCleanList p.data

/-- Go `path.Join` restricted to two elements, as `WithPrefix` calls it:
skip leading empty elements, join the rest with `/`, then clean. -/
def pathJoin (a b : String) : String :=
  if a = "" then
    if b = "" then "" else pathClean b
  else pathClean (a ++ "/" ++ b)

/-- A kept path segment: nonempty and separator-free. -/
def goodSeg (seg : List Char) : Prop := seg ≠ [] ∧ '/' ∉ seg

/-- Adjacent characters are not both separators. -/
def sepOk (a b : Char) : Prop := ¬(a = '/' ∧ b = '/')

instance (a b : Char) : Decidable (sepOk a b) :=
  inferInstanceAs (Decidable (¬(a = '/' ∧ b = '/')))

/-! The per-route-set feature flags and the route options over them.
`featuredRoutes`, `jwtSetting` and `signatureSetting` live in
rest/engine.go and rest/types.go of the repository (not under src/). -/

/-- Modelled from the spec: the AuthConfig of a RouteSet (rest/engine.go's
`jwtSetting`, not in src/) — enabled flag, current secret, previous secret. -/
structure jwtSetting where
  enabled : Bool
  secret : String
  prevSecret : String
deriving DecidableEq

/-- Modelled from the spec: `SignatureConf` (rest/config.go, not in src/) —
strict mode, expiry window, private keys keyed by fingerprint. -/
structure SignatureConf where
  Strict : Bool
  Expiry : Int
  PrivateKeys : List (String × String)
deriving DecidableEq

/-- Modelled from the spec: a RouteSet's signature config (rest/engine.go's
`signatureSetting`, not in src/) — the `SignatureConf` fields plus an
enabled flag. -/
structure signatureSetting where
  enabled : Bool
  Strict : Bool
  Expiry : Int
  PrivateKeys : List (String × String)
deriving DecidableEq

/-- Modelled from the spec: a RouteSet (rest/engine.go's `featuredRoutes`,
not in src/) — ordered routes plus auth, signature and priority flags. -/
structure featuredRoutes where
  priority : Bool
  routes : List Route
  jwt : jwtSetting
  signature : signatureSetting

/-- `RouteOption func(r *featuredRoutes)` from server.go; a Go panic during
option application is modelled as `Except.error`. -/
def RouteOption := featuredRoutes → Except String featuredRoutes

/-- `validateSecret` (server.go): panics when the secret is shorter than 8
bytes (Go `len` counts bytes). -/
def validateSecret (secret : String) : Except String Unit :=
  if secret.utf8ByteSize < 8 then
    Except.error "secret's length can't be less than 8"
  else Except.ok ()

/-- `WithJwt` (server.go). -/
def WithJwt (secret : String) : RouteOption := fun r =>
  match validateSecret secret with
  | Except.error e => Except.error e
  | Except.ok _ =>
      Except.ok { r with jwt := { r.jwt with enabled := true, secret := secret } }

/-- `WithJwtTransition` (server.go): prevSecret is deliberately unvalidated. -/
def WithJwtTransition (secret prevSecret : String) : RouteOption := fun r =>
  match validateSecret secret with
  | Except.error e => Except.error e
  | Except.ok _ =>
      Except.ok { r with jwt :=
        { enabled := true, secret := secret, prevSecret := prevSecret } }

/-- `WithPrefix` (server.go): rebuilds each route with the joined path. -/
def WithPrefix (group : String) : RouteOption := fun r =>
  Except.ok { r with routes := r.routes.map (fun rt =>
    { Method := rt.Method
      Path := pathJoin group rt.Path
      Handler := rt.Handler }) }

/-- `WithPriority` (server.go). -/
def WithPriority : RouteOption := fun r =>
  Except.ok { r with priority := true }

/-- `WithSignature` (server.go): copies the conf fields and sets enabled. -/
def WithSignature (signature : SignatureConf) : RouteOption := fun r =>
  Except.ok { r with signature :=
    { enabled := true
      Strict := signature.Strict
      Expiry := signature.Expiry
      PrivateKeys := signature.PrivateKeys } }

/-- The option-application loop of `Server.AddRoutes` (server.go). -/
def applyRouteOptions (opts : List RouteOption) (r : featuredRoutes) :
    Except String featuredRoutes :=
  opts.foldlM (fun acc opt => opt acc) r

/-! The Server / engine layer and the run options. -/

/-- Model of `*tls.Config`: an opaque distinguishable value. -/
structure TlsConfig where
  val : Nat
deriving DecidableEq

/-- Model of Go `error` values reaching `handleError`: the distinguished
`http.ErrServerClosed` or any other error. -/
inductive GoError where
  | errServerClosed
  | other (msg : String)
deriving DecidableEq

/-- Modelled from the spec: the router collaborator (rest/router, not in
src/) exposes `SetNotFoundHandler` and `SetNotAllowedHandler`; a fresh
router carries neither handler. -/
structure Router where
  notFound : Option HandlerFunc
  notAllowed : Option HandlerFunc

/-- Modelled from the spec: `router.NewRouter()` (rest/router, not in src/). -/
def NewRouter : Router := { notFound := none, notAllowed := none }

/-- Modelled from the spec: the router's not-found setter. -/
def Router.SetNotFoundHandler (rt : Router) (handler : HandlerFunc) : Router :=
  { rt with notFound := some handler }

/-- Modelled from the spec: the router's not-allowed setter. -/
def Router.SetNotAllowedHandler (rt : Router) (handler : HandlerFunc) : Router :=
  { rt with notAllowed := some handler }

/-- Modelled from the spec: `RestConf` (rest/config.go, not in src/);
only the outcome of `SetUp` is observable here. -/
structure RestConf where
  setupResult : Except String Unit

/-- Modelled from the spec: `RestConf.SetUp`. -/
def RestConf.SetUp (c : RestConf) : Except String Unit := c.setupResult

/-- Modelled from the spec: the engine collaborator (rest/engine.go, not in
src/) — it owns the conf, an optional TLS config set by `setTlsConfig`, and
a start outcome standing for whatever its listening loop returns. -/
structure engine where
  conf : RestConf
  tlsConfig : Option TlsConfig
  startErr : Option GoError

/-- Modelled from the spec: `newEngine` (rest/engine.go, not in src/). -/
def newEngine (c : RestConf) : engine :=
  { conf := c, tlsConfig := none, startErr := none }

/-- Which engine entry point a start strategy invokes. -/
inductive startInvocation where
  | plainStart
  | withRouter (router : Router)

/-- Outcome of running a start strategy: the entry point invoked and the
error the engine returned. -/
structure startResult where
  invocation : startInvocation
  err : Option GoError

/-- Modelled from the spec: `engine.Start` (rest/engine.go, not in src/)
starts with the engine's own router and returns the engine's outcome. -/
def engine.Start (ng : engine) : startResult :=
  { invocation := startInvocation.plainStart, err := ng.startErr }

/-- Modelled from the spec: `engine.StartWithRouter` (rest/engine.go, not in
src/) starts with the given router. -/
def engine.StartWithRouter (ng : engine) (router : Router) : startResult :=
  { invocation := startInvocation.withRouter router, err := ng.startErr }

/-- Modelled from the spec: `engine.setTlsConfig` (rest/engine.go, not in
src/) stores the config. -/
def engine.setTlsConfig (ng : engine) (cfg : TlsConfig) : engine :=
  { ng with tlsConfig := some cfg }

/-- `runOptions` (server.go): the configured start strategy. -/
structure runOptions where
  start : engine → startResult

/-- `Server` (server.go). -/
structure Server where
  ngin : engine
  opts : runOptions

/-- `RunOption func(*Server)` from server.go. -/
def RunOption := Server → Server

/-- `NewServer` (server.go): set up the conf, build the server with the
default start strategy, then apply the options in order. -/
def NewServer (c : RestConf) (opts : List RunOption) : Except String Server :=
  match c.SetUp with
  | Except.error e => Except.error e
  | Except.ok _ =>
      Except.ok (opts.foldl (fun s opt => opt s)
        { ngin := newEngine c
          opts := { start := fun ng => ng.Start } })

/-- Observable effects of `handleError` (server.go): what was logged via
`logx.Error` and what was passed to `panic`. -/
structure ErrorEffects where
  logged : Option GoError
  panicked : Option GoError
deriving DecidableEq

/-- `handleError` (server.go): nil and `http.ErrServerClosed` are silently
accepted; anything else is logged and then re-raised. -/
def handleError (err : Option GoError) : ErrorEffects :=
  match err with
  | none => { logged := none, panicked := none }
  | some e =>
      if e = GoError.errServerClosed then { logged := none, panicked := none }
      else { logged := some e, panicked := some e }

/-- `Server.Start` (server.go): run the configured strategy, feed its error
to `handleError`. -/
def Server.Start (s : Server) : ErrorEffects :=
  handleError (s.opts.start s.ngin).err

/-- `WithRouter` (server.go): replaces the start strategy. -/
def WithRouter (router : Router) : RunOption := fun server =>
  { server with opts := { start := fun ng => ng.StartWithRouter router } }

/-- `WithNotFoundHandler` (server.go): fresh router with only the not-found
handler, installed through `WithRouter`. -/
def WithNotFoundHandler (handler : HandlerFunc) : RunOption :=
  WithRouter (NewRouter.SetNotFoundHandler handler)

/-- `WithNotAllowedHandler` (server.go): fresh router with only the
not-allowed handler, installed through `WithRouter`. -/
def WithNotAllowedHandler (handler : HandlerFunc) : RunOption :=
  WithRouter (NewRouter.SetNotAllowedHandler handler)

/-- `WithTLSConfig` (server.go). -/
def WithTLSConfig (cfg : TlsConfig) : RunOption := fun srv =>
  { srv with ngin := srv.ngin.setTlsConfig cfg }

/-- A concrete featured route set used to instantiate general theorems. -/
def fr0 : featuredRoutes :=
  { priority := false
    routes := [{ Method := "GET", Path := "/users", Handler := traceHandler }]
    jwt := { enabled := false, secret := "", prevSecret := "" }
    signature := { enabled := false, Strict := false, Expiry := 0, PrivateKeys := [] } }

theorem withMiddlewares_nil (rs : List Route) : WithMiddlewares [] rs = rs := rfl

theorem withMiddlewares_cons (m : Middleware) (ms : List Middleware) (rs : List Route) :
    WithMiddlewares (m :: ms) rs = WithMiddleware m (WithMiddlewares ms rs) := by
  simp [WithMiddlewares, List.foldl_append]

theorem withMiddleware_nest (ms : List Middleware) (rs : List Route) :
    WithMiddlewares ms rs
      = rs.map (fun r => { r with Handler := nest ms r.Handler }) := by
  induction ms with
  | nil => simp [withMiddlewares_nil, nest]
  | cons m ms ih =>
      rw [withMiddlewares_cons, ih]
      simp [WithMiddleware, nest, List.map_map]

theorem nest_trace (names : List String) (t : List String) :
    nest (names.map traceMw) traceHandler t
      = t ++ names.map (fun n => "enter:" ++ n) ++ ["handler"]
          ++ (names.reverse.map (fun n => "exit:" ++ n)) := by
  induction names generalizing t with
  | nil => simp [nest, traceHandler]
  | cons n names ih =>
      simp only [List.map_cons, nest, List.foldr_cons]
      show traceMw n (nest (names.map traceMw) traceHandler) t = _
      rw [traceMw]
      show nest (names.map traceMw) traceHandler (t ++ ["enter:" ++ n]) ++ ["exit:" ++ n] = _
      rw [ih]
      simp

/-- C1: `WithMiddlewares` wraps so the first middleware is the outermost
layer: every output handler is the nesting `ms[0] (ms[1] (... h))`, and for
tracing middlewares the composed handler runs the enter events in sequence
order, then the handler, then the exit events in reverse order. -/
theorem withMiddlewares_first_outermost (ms : List Middleware) (rs : List Route)
    (names : List String) (t : List String) :
    WithMiddlewares ms rs = rs.map (fun r => { r with Handler := nest ms r.Handler })
    ∧ nest (names.map traceMw) traceHandler t
        = t ++ names.map (fun n => "enter:" ++ n) ++ ["handler"]
            ++ names.reverse.map (fun n => "exit:" ++ n) :=
  ⟨withMiddleware_nest ms rs, nest_trace names t⟩

/-- C8: `WithMiddleware` returns a sequence of the same length whose i-th
route keeps the i-th input method and path and carries the wrapped handler. -/
theorem withMiddleware_shape (mw : Middleware) (rs : List Route) :
    (WithMiddleware mw rs).length = rs.length
    ∧ ∀ i : Nat, (WithMiddleware mw rs)[i]?
        = (rs[i]?).map (fun r =>
            { Method := r.Method, Path := r.Path, Handler := mw r.Handler }) := by
  refine ⟨by simp [WithMiddleware], fun i => ?_⟩
  simp [WithMiddleware]

/-- C9: applying `WithMiddlewares` with an empty middleware sequence
returns the route sequence unchanged. -/
theorem withMiddlewares_empty_identity (rs : List Route) :
    WithMiddlewares [] rs = rs := rfl

/-- C2: `WithJwt` fails (Go panic) with the descriptive message on secrets
shorter than 8 bytes, leaving the route set unmodified, and on secrets of
at least 8 bytes succeeds setting jwt.enabled and jwt.secret. -/
theorem withJwt_validation (secret : String) (r : featuredRoutes) :
    (secret.utf8ByteSize < 8 →
        WithJwt secret r = Except.error "secret's length can't be less than 8")
    ∧ (8 ≤ secret.utf8ByteSize →
        WithJwt secret r = Except.ok
          { r with jwt := { r.jwt with enabled := true, secret := secret } }) := by
  constructor
  · intro h
    simp [WithJwt, validateSecret, h]
  · intro h
    simp [WithJwt, validateSecret, Nat.not_lt.mpr h]

theorem withJwt_validation_witness :
    WithJwt "short" fr0 = Except.error "secret's length can't be less than 8"
    ∧ WithJwt "longenough1" fr0 = Except.ok
        { fr0 with jwt := { fr0.jwt with enabled := true, secret := "longenough1" } } :=
  ⟨(withJwt_validation "short" fr0).1 (by decide),
   (withJwt_validation "longenough1" fr0).2 (by decide)⟩

/-- C3: `WithJwtTransition` validates only the new secret: any prevSecret
is accepted, and on success jwt.enabled, jwt.secret and jwt.prevSecret are
all set; a new secret shorter than 8 bytes fails configuration. -/
theorem withJwtTransition_validation (secret prevSecret : String) (r : featuredRoutes) :
    (8 ≤ secret.utf8ByteSize →
        WithJwtTransition secret prevSecret r = Except.ok
          { r with jwt := { enabled := true, secret := secret, prevSecret := prevSecret } })
    ∧ (secret.utf8ByteSize < 8 →
        WithJwtTransition secret prevSecret r
          = Except.error "secret's length can't be less than 8") := by
  constructor
  · intro h
    simp [WithJwtTransition, validateSecret, Nat.not_lt.mpr h]
  · intro h
    simp [WithJwtTransition, validateSecret, h]

theorem withJwtTransition_validation_witness :
    WithJwtTransition "longenough1" "x" fr0 = Except.ok
      { fr0 with jwt := { enabled := true, secret := "longenough1", prevSecret := "x" } }
    ∧ WithJwtTransition "short" "x" fr0
        = Except.error "secret's length can't be less than 8" :=
  ⟨(withJwtTransition_validation "longenough1" "x" fr0).1 (by decide),
   (withJwtTransition_validation "short" "x" fr0).2 (by decide)⟩

/-- C5: `Server.Start` with a strategy returning nil or the server-closed
error neither logs nor panics; any other error is logged and panicked. -/
theorem start_handleError (s : Server) :
    ((s.opts.start s.ngin).err = none →
        Server.Start s = { logged := none, panicked := none })
    ∧ ((s.opts.start s.ngin).err = some GoError.errServerClosed →
        Server.Start s = { logged := none, panicked := none })
    ∧ (∀ e, (s.opts.start s.ngin).err = some e → e ≠ GoError.errServerClosed →
        Server.Start s = { logged := some e, panicked := some e }) := by
  refine ⟨fun h => ?_, fun h => ?_, fun e h hne => ?_⟩ <;>
    simp [Server.Start, handleError, h]
  exact fun contra => absurd contra hne

theorem start_handleError_witness :
    Server.Start { ngin := { conf := ⟨Except.ok ()⟩, tlsConfig := none, startErr := none },
                   opts := { start := fun ng => ng.Start } }
      = { logged := none, panicked := none }
    ∧ Server.Start { ngin := { conf := ⟨Except.ok ()⟩, tlsConfig := none,
                               startErr := some GoError.errServerClosed },
                     opts := { start := fun ng => ng.Start } }
      = { logged := none, panicked := none }
    ∧ Server.Start { ngin := { conf := ⟨Except.ok ()⟩, tlsConfig := none,
                               startErr := some (GoError.other "boom") },
                     opts := { start := fun ng => ng.Start } }
      = { logged := some (GoError.other "boom"), panicked := some (GoError.other "boom") } :=
  ⟨(start_handleError _).1 rfl,
   (start_handleError _).2.1 rfl,
   (start_handleError _).2.2 (GoError.other "boom") rfl (by decide)⟩

/-- C10: `WithNotFoundHandler` and `WithNotAllowedHandler` each build a
fresh router with only their own handler and replace the start strategy, so
applying both leaves only the later option's handler in the router used at
start time. -/
theorem fallback_handlers_do_not_combine (h1 h2 : HandlerFunc) (s : Server) (ng : engine) :
    (WithNotAllowedHandler h2 (WithNotFoundHandler h1 s)).opts.start ng
        = ng.StartWithRouter { notFound := none, notAllowed := some h2 }
    ∧ (WithNotFoundHandler h1 (WithNotAllowedHandler h2 s)).opts.start ng
        = ng.StartWithRouter { notFound := some h1, notAllowed := none } :=
  ⟨rfl, rfl⟩

theorem validateSecret_ok (secret : String) (h : 8 ≤ secret.utf8ByteSize) :
    validateSecret secret = Except.ok () := by
  simp [validateSecret, Nat.not_lt.mpr h]

/-- C6: the route options Prefix, Priority, JWT (with a valid secret) and
Signature pairwise commute on any featured route set, since each touches a
disjoint field. -/
theorem routeOptions_commute (g : String) (sig : SignatureConf) (secret : String)
    (r : featuredRoutes) (h : 8 ≤ secret.utf8ByteSize) :
    Except.bind (WithPrefix g r) WithPriority
        = Except.bind (WithPriority r) (WithPrefix g)
    ∧ Except.bind (WithPrefix g r) (WithJwt secret)
        = Except.bind (WithJwt secret r) (WithPrefix g)
    ∧ Except.bind (WithPrefix g r) (WithSignature sig)
        = Except.bind (WithSignature sig r) (WithPrefix g)
    ∧ Except.bind (WithPriority r) (WithJwt secret)
        = Except.bind (WithJwt secret r) WithPriority
    ∧ Except.bind (WithPriority r) (WithSignature sig)
        = Except.bind (WithSignature sig r) WithPriority
    ∧ Except.bind (WithJwt secret r) (WithSignature sig)
        = Except.bind (WithSignature sig r) (WithJwt secret) := by
  refine ⟨?_, ?_, ?_, ?_, ?_, ?_⟩ <;>
    simp [WithPrefix, WithPriority, WithJwt, WithSignature,
      validateSecret_ok secret h, Except.bind]

theorem routeOptions_commute_witness :
    Except.bind (WithPrefix "/api" fr0) (WithJwt "longenough1")
      = Except.bind (WithJwt "longenough1" fr0) (WithPrefix "/api") :=
  (routeOptions_commute "/api" ⟨false, 0, []⟩ "longenough1" fr0 (by decide)).2.1

/-- C7: run options are applied in supply order and the later writer wins:
two `WithTLSConfig` options leave the second config in the engine, and two
`WithRouter` options leave a start strategy that starts with the second
router. -/
theorem runOptions_last_writer_wins (c : RestConf) (cfg1 cfg2 : TlsConfig)
    (rt1 rt2 : Router) (h : c.SetUp = Except.ok ()) :
    (∃ s, NewServer c [WithTLSConfig cfg1, WithTLSConfig cfg2] = Except.ok s
        ∧ s.ngin.tlsConfig = some cfg2)
    ∧ (∃ s, NewServer c [WithRouter rt1, WithRouter rt2] = Except.ok s
        ∧ ∀ ng, s.opts.start ng = ng.StartWithRouter rt2) := by
  constructor
  · refine ⟨{ ngin := { conf := c, tlsConfig := some cfg2, startErr := none },
              opts := { start := fun ng => ng.Start } }, ?_, rfl⟩
    unfold NewServer
    rw [h]
    rfl
  · refine ⟨{ ngin := { conf := c, tlsConfig := none, startErr := none },
              opts := { start := fun ng => ng.StartWithRouter rt2 } }, ?_, fun ng => rfl⟩
    unfold NewServer
    rw [h]
    rfl

theorem runOptions_last_writer_wins_witness :
    (∃ s, NewServer ⟨Except.ok ()⟩ [WithTLSConfig ⟨1⟩, WithTLSConfig ⟨2⟩] = Except.ok s
        ∧ s.ngin.tlsConfig = some ⟨2⟩)
    ∧ (∃ s, NewServer ⟨Except.ok ()⟩
          [WithRouter NewRouter, WithRouter (NewRouter.SetNotFoundHandler traceHandler)]
          = Except.ok s
        ∧ ∀ ng, s.opts.start ng
            = ng.StartWithRouter (NewRouter.SetNotFoundHandler traceHandler)) :=
  runOptions_last_writer_wins ⟨Except.ok ()⟩ ⟨1⟩ ⟨2⟩ NewRouter
    (NewRouter.SetNotFoundHandler traceHandler) rfl

theorem splitSlash_no_slash : ∀ (cs : List Char), ∀ seg ∈ splitSlash cs, '/' ∉ seg := by
  intro cs
  induction cs with
  | nil =>
      intro seg hseg
      simp [splitSlash] at hseg
      simp [hseg]
  | cons c rest ih =>
      intro seg hseg
      by_cases hc : c = '/'
      · simp only [splitSlash, if_pos hc] at hseg
        rcases List.mem_cons.mp hseg with h | h
        · simp [h]
        · exact ih seg h
      · simp only [splitSlash, if_neg hc] at hseg
        cases hs : splitSlash rest with
        | nil =>
            rw [hs] at hseg
            simp at hseg
            subst hseg
            intro hmem
            rcases List.mem_cons.mp hmem with h1 | h1
            · exact hc h1.symm
            · simp at h1
        | cons s ss =>
            rw [hs] at hseg
            rcases List.mem_cons.mp hseg with h | h
            · subst h
              intro hmem
              rcases List.mem_cons.mp hmem with h1 | h1
              · exact hc h1.symm
              · exact ih s (by rw [hs]; exact List.mem_cons_self s ss) h1
            · exact ih seg (by rw [hs]; exact List.mem_cons_of_mem s h)

theorem cleanSegs_good :
    ∀ (input : List (List Char)) (rooted : Bool) (acc : List (List Char)),
      (∀ s ∈ acc, goodSeg s) → (∀ s ∈ input, '/' ∉ s) →
      ∀ s ∈ cleanSegs rooted acc input, goodSeg s := by
  intro input
  induction input with
  | nil =>
      intro rooted acc hacc _ s hs
      simp only [cleanSegs] at hs
      exact hacc s (List.mem_reverse.mp hs)
  | cons seg rest ih =>
      intro rooted acc hacc hinput s hs
      have hrest : ∀ t ∈ rest, '/' ∉ t := fun t ht => hinput t (List.mem_cons_of_mem _ ht)
      simp only [cleanSegs] at hs
      by_cases h1 : seg = [] ∨ seg = ['.']
      · rw [if_pos h1] at hs
        exact ih rooted acc hacc hrest s hs
      · rw [if_neg h1] at hs
        by_cases h2 : seg = ['.', '.']
        · rw [if_pos h2] at hs
          cases acc with
          | nil =>
              cases rooted with
              | false =>
                  simp only [Bool.false_eq_true, if_false] at hs
                  refine ih false [seg] ?_ hrest s hs
                  intro t ht
                  simp at ht
                  subst ht
                  constructor
                  · simp [h2]
                  · rw [h2]
                    decide
              | true =>
                  simp only [if_true] at hs
                  exact ih true [] (by simp) hrest s hs
          | cons top accRest =>
              by_cases h3 : top = ['.', '.']
              · simp only [if_pos h3] at hs
                refine ih rooted (seg :: top :: accRest) ?_ hrest s hs
                intro t ht
                rcases List.mem_cons.mp ht with h | h
                · rw [h, h2]
                  exact ⟨by simp, by decide⟩
                · exact hacc t h
              · simp only [if_neg h3] at hs
                exact ih rooted accRest
                  (fun t ht => hacc t (List.mem_cons_of_mem _ ht)) hrest s hs
        · rw [if_neg h2] at hs
          refine ih rooted (seg :: acc) ?_ hrest s hs
          intro t ht
          rcases List.mem_cons.mp ht with h | h
          · rw [h]
            exact ⟨fun hne => h1 (Or.inl hne), hinput seg (List.mem_cons_self _ _)⟩
          · exact hacc t h

theorem noslash_chain : ∀ (l : List Char), '/' ∉ l → List.Chain' sepOk l := by
  intro l
  induction l with
  | nil => intro _; exact List.chain'_nil
  | cons a l ih =>
      intro h
      refine List.chain'_cons'.mpr ⟨?_, ih (fun hm => h (List.mem_cons_of_mem _ hm))⟩
      intro y _
      intro hcontra
      exact h (by rw [← hcontra.1]; exact List.mem_cons_self _ _)

theorem joinSegs_ne_nil (t : List Char) (rest : List (List Char)) (ht : t ≠ []) :
    joinSegs (t :: rest) ≠ [] := by
  cases rest with
  | nil => simpa [joinSegs] using ht
  | cons u rest2 =>
      simp only [joinSegs]
      intro hcontra
      rcases List.append_eq_nil.mp hcontra with ⟨h1, _⟩
      exact ht h1

theorem head_not_slash (s : List Char) (hgood : goodSeg s) : s.head? ≠ some '/' := by
  intro hh
  exact hgood.2 (List.mem_of_mem_head? hh)

theorem getLast_not_slash (s : List Char) (hgood : goodSeg s) : s.getLast? ≠ some '/' := by
  intro hh
  rcases List.mem_getLast?_eq_getLast hh with ⟨hne, heq⟩
  exact hgood.2 (heq ▸ List.getLast_mem hne)

theorem joinSegs_good :
    ∀ (segs : List (List Char)), (∀ s ∈ segs, goodSeg s) →
      (joinSegs segs).head? ≠ some '/'
      ∧ (joinSegs segs).getLast? ≠ some '/'
      ∧ List.Chain' sepOk (joinSegs segs) := by
  intro segs
  induction segs with
  | nil =>
      intro _
      exact ⟨by simp [joinSegs], by simp [joinSegs], List.chain'_nil⟩
  | cons s rest ih =>
      intro hgood
      have hs : goodSeg s := hgood s (List.mem_cons_self _ _)
      cases rest with
      | nil =>
          exact ⟨head_not_slash s hs, getLast_not_slash s hs, noslash_chain s hs.2⟩
      | cons t rest2 =>
          have hgr : ∀ u ∈ t :: rest2, goodSeg u :=
            fun u hu => hgood u (List.mem_cons_of_mem _ hu)
          obtain ⟨ihh, ihl, ihc⟩ := ih hgr
          have ht : goodSeg t := hgr t (List.mem_cons_self _ _)
          have hJne : joinSegs (t :: rest2) ≠ [] := joinSegs_ne_nil t rest2 ht.1
          have hshape : joinSegs (s :: t :: rest2) = s ++ '/' :: joinSegs (t :: rest2) := rfl
          refine ⟨?_, ?_, ?_⟩
          · rw [hshape, List.head?_append_of_ne_nil _ hs.1]
            exact head_not_slash s hs
          · rw [hshape]
            have hcons : ('/' :: joinSegs (t :: rest2)).getLast?
                = (joinSegs (t :: rest2)).getLast? := by
              rw [show ('/' :: joinSegs (t :: rest2)) = ['/'] ++ joinSegs (t :: rest2) from rfl,
                List.getLast?_append_of_ne_nil _ hJne]
            rw [List.getLast?_append_of_ne_nil _ (by simp), hcons]
            exact ihl
          · rw [hshape]
            refine List.chain'_append.mpr ⟨noslash_chain s hs.2, ?_, ?_⟩
            · refine List.chain'_cons'.mpr ⟨?_, ihc⟩
              intro y hy
              intro hcontra
              rw [hcontra.2] at hy
              exact ihh (Option.mem_def.mp hy)
            · intro x hx y hy
              simp at hy
              intro hcontra
              rw [hcontra.1] at hx
              exact getLast_not_slash s hs (Option.mem_def.mp hx)

theorem pathCleanList_normalized (l : List Char) :
    List.Chain' sepOk (pathCleanList l).data
    ∧ (pathCleanList l ≠ "/" → (pathCleanList l).data.getLast? ≠ some '/') := by
  cases l with
  | nil =>
      constructor
      · show List.Chain' sepOk (String.data ".")
        rw [show String.data "." = ['.'] from rfl]
        exact List.chain'_singleton _
      · intro _
        show (String.data ".").getLast? ≠ some '/'
        decide
  | cons c cs =>
      simp only [pathCleanList]
      by_cases hc : c = '/'
      · rw [if_pos hc]
        have good : ∀ s ∈ cleanSegs true [] (splitSlash (c :: cs)), goodSeg s :=
          cleanSegs_good _ true [] (by simp) (splitSlash_no_slash _)
        obtain ⟨bh, bl, bc⟩ := joinSegs_good _ good
        constructor
        · show List.Chain' sepOk ('/' :: joinSegs (cleanSegs true [] (splitSlash (c :: cs))))
          refine List.chain'_cons'.mpr ⟨?_, bc⟩
          intro y hy hcontra
          rw [hcontra.2] at hy
          exact bh (Option.mem_def.mp hy)
        · intro hne
          show ('/' :: joinSegs (cleanSegs true [] (splitSlash (c :: cs)))).getLast? ≠ some '/'
          by_cases hbody : joinSegs (cleanSegs true [] (splitSlash (c :: cs))) = []
          · exfalso
            apply hne
            rw [hbody]
          · rw [show ('/' :: joinSegs (cleanSegs true [] (splitSlash (c :: cs))))
                  = ['/'] ++ joinSegs (cleanSegs true [] (splitSlash (c :: cs))) from rfl,
              List.getLast?_append_of_ne_nil _ hbody]
            exact bl
      · rw [if_neg hc]
        have good : ∀ s ∈ cleanSegs false [] (splitSlash (c :: cs)), goodSeg s :=
          cleanSegs_good _ false [] (by simp) (splitSlash_no_slash _)
        obtain ⟨bh, bl, bc⟩ := joinSegs_good _ good
        by_cases hbody : joinSegs (cleanSegs false [] (splitSlash (c :: cs))) = []
        · rw [if_pos hbody]
          constructor
          · show List.Chain' sepOk (String.data ".")
            rw [show String.data "." = ['.'] from rfl]
            exact List.chain'_singleton _
          · intro _
            show (String.data ".").getLast? ≠ some '/'
            decide
        · rw [if_neg hbody]
          exact ⟨bc, fun _ => bl⟩

theorem pathClean_normalized (p : String) :
    List.Chain' sepOk (pathClean p).data
    ∧ (pathClean p ≠ "/" → (pathClean p).data.getLast? ≠ some '/') :=
  pathCleanList_normalized p.data

theorem pathJoin_normalized (a b : String) :
    List.Chain' sepOk (pathJoin a b).data
    ∧ (pathJoin a b ≠ "/" → (pathJoin a b).data.getLast? ≠ some '/') := by
  unfold pathJoin
  by_cases ha : a = ""
  · rw [if_pos ha]
    by_cases hb : b = ""
    · rw [if_pos hb]
      exact ⟨List.chain'_nil, fun _ => by decide⟩
    · rw [if_neg hb]
      exact pathClean_normalized b
  · rw [if_neg ha]
    exact pathClean_normalized (a ++ "/" ++ b)

/-- C4: `WithPrefix` rewrites each route's path to the Go `path.Join` of
the group and the original path, leaving method and handler unchanged;
sequential application composes left-to-right (`/api` then `/v1` turns
`/users` into `/v1/api/users`); joined paths are normalized: no duplicate
separators and no trailing separator (except the root path itself). -/
theorem withPrefix_rewrites (group : String) (r : featuredRoutes) :
    WithPrefix group r = Except.ok { r with routes := r.routes.map (fun rt =>
        { Method := rt.Method, Path := pathJoin group rt.Path, Handler := rt.Handler }) }
    ∧ applyRouteOptions [WithPrefix "/api", WithPrefix "/v1"] fr0
        = Except.ok { fr0 with routes :=
            [{ Method := "GET", Path := "/v1/api/users", Handler := traceHandler }] }
    ∧ pathJoin "/api/" "//users//" = "/api/users"
    ∧ (∀ a b : String, List.Chain' sepOk (pathJoin a b).data)
    ∧ (∀ a b : String, pathJoin a b ≠ "/" → (pathJoin a b).data.getLast? ≠ some '/') := by
  refine ⟨rfl, ?_, by decide, fun a b => (pathJoin_normalized a b).1,
    fun a b => (pathJoin_normalized a b).2⟩
  rfl

theorem withPrefix_rewrites_witness :
    List.Chain' sepOk (pathJoin "/api/" "//users//").data
    ∧ (pathJoin "/a" "b/").data.getLast? ≠ some '/' :=
  ⟨(withPrefix_rewrites "/x" fr0).2.2.2.1 "/api/" "//users//",
   (withPrefix_rewrites "/x" fr0).2.2.2.2 "/a" "b/" (by decide)⟩

end GoZero
